import Mathlib

/-!
Shallow embedding of the acdb key-value store (Go package `acdb`).

The package exposes a `Driver` interface (`Get`, `Set`, `Del`) with four
implementations: `MemDriver` (in-memory map), `DocDriver` (one file per key),
`LruDriver` (bounded LRU cache wrapping `lru.Cache`), and `MapDriver`
(layered: `LruDriver` cache in front of `DocDriver` storage), plus `Emerge`,
a mutex guard also offering `GetDecode`/`SetEncode`.

Values are byte sequences, modelled as `List Nat`; keys are `String`.
Go's `(value, error)` returns are modelled with `Except Err`; operations that
mutate a driver return the updated driver state explicitly.
-/

set_option autoImplicit false

namespace Acdb

/-- Error kinds observable from the package: `os.ErrNotExist` (`notExist`),
an underlying I/O failure (`ioError`), an invalid-capacity construction
error (`configError`), and serialization failures from the external
`encoding/json` collaborator (`encodeError`, `decodeError`). -/
inductive Err where
  | notExist
  | ioError
  | configError
  | encodeError
  | decodeError
deriving DecidableEq, Repr

/-- Lookup in an association list of keys and byte values (first match). -/
def alistLookup : List (String × List Nat) → String → Option (List Nat)
  | [], _ => none
  | (k', v) :: t, k => if k' = k then some v else alistLookup t k

/-- Remove every entry with the given key from an association list. -/
def alistEraseKey : List (String × List Nat) → String → List (String × List Nat)
  | [], _ => []
  | (k', v) :: t, k => if k' = k then alistEraseKey t k else (k', v) :: alistEraseKey t k

/-- Overwrite the value bound to a key (Go `m[k] = v` on a map). -/
def alistStore (l : List (String × List Nat)) (k : String) (v : List Nat) :
    List (String × List Nat) :=
  (k, v) :: alistEraseKey l k

/-- Modelled from the spec: the internals of `lru.Cache`
(`github.com/mohanson/lru`), which are not part of this repository's
sources. Per spec §4.1 the cache keeps a mapping from key to value plus a
total recency order; `items` lists the resident entries most-recently-touched
first, and `cap` is the fixed capacity in entries. -/
structure LruCache where
  cap : Nat
  items : List (String × List Nat)
deriving DecidableEq, Repr

/-- Modelled from the spec (§4.1): `Get` on a present key refreshes it to
most-recently-used and returns the value with found = true; on an absent key
it returns found = false and performs no eviction. -/
def LruCache.get (c : LruCache) (k : String) : Option (List Nat) × LruCache :=
  match alistLookup c.items k with
  | some v => (some v, { c with items := (k, v) :: alistEraseKey c.items k })
  | none => (none, c)

/-- Modelled from the spec (§4.1): `Set` on a present key updates the value
and refreshes recency; on an absent key it inserts a new most-recently-used
entry, and if the resident count now exceeds the capacity, the single
least-recently-used entry (the last in recency order) is evicted. -/
def LruCache.set (c : LruCache) (k : String) (v : List Nat) : LruCache :=
  if c.cap < ((k, v) :: alistEraseKey c.items k).length then
    { c with items := ((k, v) :: alistEraseKey c.items k).dropLast }
  else { c with items := (k, v) :: alistEraseKey c.items k }

/-- Modelled from the spec (§4.1): `Delete` removes the entry and its recency
record if present; a delete on an absent key is a no-op. -/
def LruCache.del (c : LruCache) (k : String) : LruCache :=
  { c with items := alistEraseKey c.items k }

/-- Modelled from the spec: `lru.New` validates the capacity at construction;
capacity ≤ 0 is rejected with a configuration error (spec §3 resolves the
source ambiguity as "reject with a configuration error"), a positive
capacity yields an empty cache of that capacity. The Go `int` argument is
modelled as `Int`. -/
def NewLruDriver (size : Int) : Except Err LruCache :=
  if size ≤ 0 then .error .configError
  else .ok { cap := size.toNat, items := [] }

/-- Embeds `LruDriver.Get` (source lines 100–106): on a cache hit return the bytes
with a nil error; on a miss return `os.ErrNotExist`. -/
def LruDriver.Get (c : LruCache) (k : String) : Except Err (List Nat) × LruCache :=
  match c.get k with
  | (some v, c') => (.ok v, c')
  | (none, c') => (.error .notExist, c')

/-- Embeds `LruDriver.Set` (source lines 108–111): delegate to the cache and return
a nil error unconditionally. -/
def LruDriver.Set (c : LruCache) (k : String) (v : List Nat) : Except Err Unit × LruCache :=
  (.ok (), c.set k v)

/-- Embeds `LruDriver.Del` (source lines 113–116): delegate to the cache and return
a nil error unconditionally. -/
def LruDriver.Del (c : LruCache) (k : String) : Except Err Unit × LruCache :=
  (.ok (), c.del k)

/-- Modelled from the spec: the raw filesystem under `DocDriver`
(`os.ReadFile`, `os.WriteFile`, `os.Remove` are external primitives, spec
§1/§4.2). `files` maps each key (root-relative path) to the file's contents;
`failWrite` is the environment's choice of which writes fail with the spec's
`IOError`. -/
structure DocDriver where
  files : List (String × List Nat)
  failWrite : String → Bool

/-- Embeds `DocDriver.Get` (source lines 69–71): read the file at the key's path;
a missing file yields `os.ErrNotExist` (spec §4.2: NotFoundError). -/
def DocDriver.Get (d : DocDriver) (k : String) : Except Err (List Nat) :=
  match alistLookup d.files k with
  | some v => .ok v
  | none => .error .notExist

/-- Embeds `DocDriver.Set` (source lines 73–75): create or fully overwrite the file
at the key's path; the environment may make the write fail with an I/O
error (spec §4.2: `Set -> void | IOError`). -/
def DocDriver.Set (d : DocDriver) (k : String) (v : List Nat) : Except Err DocDriver :=
  if d.failWrite k then .error .ioError
  else .ok { d with files := alistStore d.files k v }

/-- Embeds `DocDriver.Del` (source lines 77–79): remove the file at the key's path;
removing a missing file yields `os.ErrNotExist` (spec §4.2: NotFoundError). -/
def DocDriver.Del (d : DocDriver) (k : String) : Except Err DocDriver :=
  match alistLookup d.files k with
  | some _ => .ok { d with files := alistEraseKey d.files k }
  | none => .error .notExist

/-- Embeds `MemDriver` (source lines 26–28): a Go map from key to bytes. -/
structure MemDriver where
  data : List (String × List Nat)
deriving DecidableEq, Repr

/-- Embeds `MemDriver.Get` (source lines 37–43). -/
def MemDriver.Get (d : MemDriver) (k : String) : Except Err (List Nat) :=
  match alistLookup d.data k with
  | some v => .ok v
  | none => .error .notExist

/-- Embeds `MemDriver.Set` (source lines 45–48): always succeeds. -/
def MemDriver.Set (d : MemDriver) (k : String) (v : List Nat) : Except Err Unit × MemDriver :=
  (.ok (), { d with data := alistStore d.data k v })

/-- Embeds `MemDriver.Del` (source lines 50–53): Go `delete(map, k)`, always a nil
error, including for absent keys. -/
def MemDriver.Del (d : MemDriver) (k : String) : Except Err Unit × MemDriver :=
  (.ok (), { d with data := alistEraseKey d.data k })

/-- Embeds `MapDriver` (source lines 120–123): a `DocDriver` storage backend with a
`LruDriver` cache at its interface layer. -/
structure MapDriver where
  doc : DocDriver
  lru : LruCache

/-- Embeds `NewMapDriver` (source lines 126–131): the cache capacity is always 1024. -/
def NewMapDriver (files : List (String × List Nat)) (failWrite : String → Bool) : MapDriver :=
  { doc := { files := files, failWrite := failWrite }, lru := { cap := 1024, items := [] } }

/-- Embeds `MapDriver.Get` (source lines 133–148): try the cache; on a hit return
the bytes. On a miss read the backend; on backend failure return the error.
On backend success store the bytes into the cache and return `buf, err`
where `err` is the cache store's error. -/
def MapDriver.Get (d : MapDriver) (k : String) : Except Err (List Nat) × MapDriver :=
  match LruDriver.Get d.lru k with
  | (.ok buf, lru') => (.ok buf, { d with lru := lru' })
  | (.error _, lru') =>
    match DocDriver.Get d.doc k with
    | .error e => (.error e, { d with lru := lru' })
    | .ok buf =>
      match LruDriver.Set lru' k buf with
      | (r, lru'') => (r.map (fun _ => buf), { d with lru := lru'' })

/-- Embeds `MapDriver.Set` (source lines 150–158): write the cache first, returning
early on a cache error, then write the backend, returning early on a backend
error. -/
def MapDriver.Set (d : MapDriver) (k : String) (v : List Nat) : Except Err Unit × MapDriver :=
  match LruDriver.Set d.lru k v with
  | (.error e, lru') => (.error e, { d with lru := lru' })
  | (.ok _, lru') =>
    match DocDriver.Set d.doc k v with
    | .error e => (.error e, { d with lru := lru' })
    | .ok doc' => (.ok (), { doc := doc', lru := lru' })

/-- Embeds `MapDriver.Del` (source lines 160–168): delete from the cache first,
returning early on a cache error, then delete from the backend, returning
early on a backend error. -/
def MapDriver.Del (d : MapDriver) (k : String) : Except Err Unit × MapDriver :=
  match LruDriver.Del d.lru k with
  | (.error e, lru') => (.error e, { d with lru := lru' })
  | (.ok _, lru') =>
    match DocDriver.Del d.doc k with
    | .error e => (.error e, { d with lru := lru' })
    | .ok doc' => (.ok (), { doc := doc', lru := lru' })

/-- The `Driver` interface (source lines 18–22), over an explicit state
type `σ`: the three operations `Emerge` can be constructed over. -/
structure GoDriver (σ : Type) where
  Get : σ → String → Except Err (List Nat) × σ
  Set : σ → String → List Nat → Except Err Unit × σ
  Del : σ → String → Except Err Unit × σ

/-- Embeds `Emerge.Get` (source lines 189–193): lock, call the inner driver's `Get`,
unlock. In this sequential embedding the mutex is invisible; the call is the
inner driver's call. -/
def Emerge.Get {σ : Type} (D : GoDriver σ) (s : σ) (k : String) :
    Except Err (List Nat) × σ :=
  D.Get s k

/-- Embeds `Emerge.Set` (source lines 194–198). -/
def Emerge.Set {σ : Type} (D : GoDriver σ) (s : σ) (k : String) (v : List Nat) :
    Except Err Unit × σ :=
  D.Set s k v

/-- Embeds `Emerge.Del` (source lines 216–220). -/
def Emerge.Del {σ : Type} (D : GoDriver σ) (s : σ) (k : String) :
    Except Err Unit × σ :=
  D.Del s k

/-- Embeds `Emerge.GetDecode` (source lines 200–206): guarded `Get`; on error return
that error, otherwise return `json.Unmarshal`'s result on the bytes. The
external `json.Unmarshal` collaborator is a parameter `unmarshal`. -/
def Emerge.GetDecode {σ : Type} (D : GoDriver σ) (s : σ) (k : String)
    (unmarshal : List Nat → Except Err Unit) : Except Err Unit × σ :=
  match Emerge.Get D s k with
  | (.error e, s') => (.error e, s')
  | (.ok b, s') => (unmarshal b, s')

/-- Embeds `Emerge.SetEncode` (source lines 208–214): `json.Marshal` the value; on
error return that error, otherwise perform the guarded `Set` of the bytes.
The external `json.Marshal` collaborator's result is a parameter `marshal`. -/
def Emerge.SetEncode {σ : Type} (D : GoDriver σ) (s : σ) (k : String)
    (marshal : Except Err (List Nat)) : Except Err Unit × σ :=
  match marshal with
  | .error e => (.error e, s)
  | .ok b => Emerge.Set D s k b

/-- One client operation against the eviction cache, for stating invariants
over arbitrary operation sequences. -/
inductive LruOp where
  | get : String → LruOp
  | set : String → List Nat → LruOp
  | del : String → LruOp

/-- Apply one operation to the cache, keeping only the state. -/
def LruCache.step (c : LruCache) : LruOp → LruCache
  | .get k => (c.get k).2
  | .set k v => c.set k v
  | .del k => c.del k

/-- Run a sequence of operations against the cache. -/
def LruCache.run (c : LruCache) : List LruOp → LruCache
  | [] => c
  | op :: ops => (c.step op).run ops

/-- The driver that `acdb.Mem` (source line 223) wraps in an `Emerge`,
packaged as a `GoDriver` over `MemDriver` states. -/
def MemGoDriver : GoDriver MemDriver where
  Get := fun s k => (MemDriver.Get s k, s)
  Set := fun s k v => MemDriver.Set s k v
  Del := fun s k => MemDriver.Del s k

/-! ## Helper lemmas -/

theorem alistEraseKey_length_le (l : List (String × List Nat)) (k : String) :
    (alistEraseKey l k).length ≤ l.length := by
  induction l with
  | nil => simp [alistEraseKey]
  | cons p t ih =>
    obtain ⟨k', v⟩ := p
    simp only [alistEraseKey]
    split
    · exact le_trans ih (by simp)
    · simpa using ih

theorem alistEraseKey_length_lt {l : List (String × List Nat)} {k : String} {v : List Nat}
    (h : alistLookup l k = some v) : (alistEraseKey l k).length < l.length := by
  induction l with
  | nil => simp [alistLookup] at h
  | cons p t ih =>
    obtain ⟨k', w⟩ := p
    simp only [alistLookup] at h
    simp only [alistEraseKey]
    by_cases hk : k' = k
    · simp only [if_pos hk, List.length_cons]
      exact Nat.lt_succ_of_le (alistEraseKey_length_le t k)
    · rw [if_neg hk] at h ⊢
      simpa using Nat.succ_lt_succ (ih h)

theorem alistEraseKey_of_lookup_none {l : List (String × List Nat)} {k : String}
    (h : alistLookup l k = none) : alistEraseKey l k = l := by
  induction l with
  | nil => rfl
  | cons p t ih =>
    obtain ⟨k', w⟩ := p
    simp only [alistLookup] at h
    by_cases hk : k' = k
    · rw [if_pos hk] at h
      exact absurd h (by simp)
    · rw [if_neg hk] at h
      simp [alistEraseKey, hk, ih h]

theorem alistLookup_eraseKey_self (l : List (String × List Nat)) (k : String) :
    alistLookup (alistEraseKey l k) k = none := by
  induction l with
  | nil => rfl
  | cons p t ih =>
    obtain ⟨k', w⟩ := p
    simp only [alistEraseKey]
    by_cases hk : k' = k
    · simpa [hk] using ih
    · simp [alistLookup, hk, ih]

theorem LruCache.set_cap (c : LruCache) (k : String) (v : List Nat) :
    (c.set k v).cap = c.cap := by
  simp only [LruCache.set]
  split <;> rfl

theorem LruCache.del_cap (c : LruCache) (k : String) : (c.del k).cap = c.cap := rfl

theorem LruCache.get_snd_cap (c : LruCache) (k : String) : (c.get k).2.cap = c.cap := by
  simp only [LruCache.get]
  cases h : alistLookup c.items k <;> rfl

theorem LruCache.get_of_lookup_none {c : LruCache} {k : String}
    (h : alistLookup c.items k = none) : c.get k = (none, c) := by
  simp [LruCache.get, h]

theorem LruCache.set_length_le {c : LruCache} (k : String) (v : List Nat)
    (h : c.items.length ≤ c.cap) : (c.set k v).items.length ≤ c.cap := by
  have he := alistEraseKey_length_le c.items k
  simp only [LruCache.set]
  split
  · rename_i hlt
    simp only [List.length_dropLast, List.length_cons] at hlt ⊢
    omega
  · rename_i hle
    simp only [List.length_cons] at hle ⊢
    omega

theorem LruCache.get_length_le {c : LruCache} (k : String)
    (h : c.items.length ≤ c.cap) : (c.get k).2.items.length ≤ c.cap := by
  simp only [LruCache.get]
  cases hv : alistLookup c.items k with
  | none => simpa using h
  | some v =>
    have := alistEraseKey_length_lt hv
    simp only [List.length_cons]
    omega

theorem LruCache.del_length_le {c : LruCache} (k : String)
    (h : c.items.length ≤ c.cap) : (c.del k).items.length ≤ c.cap :=
  le_trans (alistEraseKey_length_le c.items k) h

theorem LruCache.step_cap (c : LruCache) (op : LruOp) : (c.step op).cap = c.cap := by
  cases op with
  | get k => exact LruCache.get_snd_cap c k
  | set k v => exact LruCache.set_cap c k v
  | del k => rfl

theorem LruCache.step_length_le {c : LruCache} (op : LruOp)
    (h : c.items.length ≤ c.cap) : (c.step op).items.length ≤ (c.step op).cap := by
  rw [LruCache.step_cap]
  cases op with
  | get k => exact LruCache.get_length_le k h
  | set k v => exact LruCache.set_length_le k v h
  | del k => exact LruCache.del_length_le k h

theorem LruCache.run_cap (c : LruCache) (ops : List LruOp) : (c.run ops).cap = c.cap := by
  induction ops generalizing c with
  | nil => rfl
  | cons op ops ih => exact (ih (c.step op)).trans (LruCache.step_cap c op)

theorem LruCache.run_length_le {c : LruCache} (ops : List LruOp)
    (h : c.items.length ≤ c.cap) : (c.run ops).items.length ≤ (c.run ops).cap := by
  induction ops generalizing c with
  | nil => exact h.trans_eq rfl
  | cons op ops ih => exact ih (LruCache.step_length_le op h)

theorem LruCache.set_items_cons (c : LruCache) (k : String) (v : List Nat)
    (hpos : 0 < c.cap) : ∃ t, (c.set k v).items = (k, v) :: t := by
  simp only [LruCache.set]
  split
  · rename_i hlt
    cases he : alistEraseKey c.items k with
    | nil =>
      rw [he] at hlt
      simp at hlt
      omega
    | cons p t => exact ⟨(p :: t).dropLast, rfl⟩
  · exact ⟨alistEraseKey c.items k, rfl⟩

theorem LruCache.lookup_set_self (c : LruCache) (k : String) (v : List Nat)
    (hpos : 0 < c.cap) : alistLookup (c.set k v).items k = some v := by
  obtain ⟨t, ht⟩ := LruCache.set_items_cons c k v hpos
  rw [ht]
  simp [alistLookup]

theorem LruCache.set_evicts_last {c : LruCache} {k : String} (v : List Nat)
    (habs : alistLookup c.items k = none) (hfull : c.items.length = c.cap)
    (hpos : 0 < c.cap) : (c.set k v).items = (k, v) :: c.items.dropLast := by
  have he : alistEraseKey c.items k = c.items := alistEraseKey_of_lookup_none habs
  have hlt : c.cap < ((k, v) :: alistEraseKey c.items k).length := by
    rw [he]
    simp only [List.length_cons]
    omega
  rw [LruCache.set, if_pos hlt, he]
  obtain ⟨p, t, hpt⟩ : ∃ p t, c.items = p :: t := by
    cases hi : c.items with
    | nil =>
      rw [hi] at hfull
      simp at hfull
      omega
    | cons p t => exact ⟨p, t, rfl⟩
  rw [hpt]
  rfl

theorem MapDriver.Set_snd_lru (d : MapDriver) (k : String) (v : List Nat) :
    (MapDriver.Set d k v).2.lru = d.lru.set k v := by
  simp only [MapDriver.Set, LruDriver.Set]
  cases h : DocDriver.Set d.doc k v <;> simp [h]

theorem MapDriver.Get_hit {d : MapDriver} {k : String} {v : List Nat} {c' : LruCache}
    (h : d.lru.get k = (some v, c')) :
    MapDriver.Get d k = (.ok v, { d with lru := c' }) := by
  simp [MapDriver.Get, LruDriver.Get, h]

theorem MapDriver.Get_miss_error {d : MapDriver} {k : String} {e : Err}
    (hmiss : alistLookup d.lru.items k = none)
    (hdoc : DocDriver.Get d.doc k = .error e) :
    MapDriver.Get d k = (.error e, d) := by
  simp [MapDriver.Get, LruDriver.Get, LruCache.get_of_lookup_none hmiss, hdoc]

theorem MapDriver.Get_miss_ok {d : MapDriver} {k : String} {v : List Nat}
    (hmiss : alistLookup d.lru.items k = none)
    (hdoc : DocDriver.Get d.doc k = .ok v) :
    MapDriver.Get d k = (.ok v, { d with lru := d.lru.set k v }) := by
  simp [MapDriver.Get, LruDriver.Get, LruCache.get_of_lookup_none hmiss, hdoc,
    LruDriver.Set, Except.map]

/-! ## Claim theorems -/

/-- C1: on the layered store, executing Set(k, v) and then Get(k) with no
intervening operation returns exactly v, bit-identical to what was written,
for every key and every byte sequence including the empty one. The cache
capacity is positive (it is always 1024 in `NewMapDriver`). -/
theorem map_set_then_get_returns_value (d : MapDriver) (k : String) (v : List Nat)
    (hcap : 0 < d.lru.cap) :
    (MapDriver.Get (MapDriver.Set d k v).2 k).1 = .ok v := by
  have hl : (MapDriver.Set d k v).2.lru = d.lru.set k v := MapDriver.Set_snd_lru d k v
  have hk : alistLookup (MapDriver.Set d k v).2.lru.items k = some v := by
    rw [hl]
    exact LruCache.lookup_set_self d.lru k v hcap
  have hget : (MapDriver.Set d k v).2.lru.get k =
      (some v, { (MapDriver.Set d k v).2.lru with
        items := (k, v) :: alistEraseKey (MapDriver.Set d k v).2.lru.items k }) := by
    simp [LruCache.get, hk]
  rw [MapDriver.Get_hit hget]

/-- Witness for C1: a concrete fresh store, key "a" and the empty value. -/
theorem map_set_then_get_returns_value_witness :
    0 < (NewMapDriver [] (fun _ => false)).lru.cap ∧
    (MapDriver.Get (MapDriver.Set (NewMapDriver [] (fun _ => false)) "a" []).2 "a").1
      = .ok [] :=
  ⟨by decide, map_set_then_get_returns_value _ "a" [] (by decide)⟩

/-- C2: layered Get consults the cache first and returns immediately on a
hit; on a miss it delegates to the backend; on backend success the value is
inserted into the cache before being returned; on backend failure the error
is propagated and the state, cache included, is unmodified. -/
theorem map_get_reads_through (d : MapDriver) (k : String) :
    (∀ (v : List Nat) (c' : LruCache), d.lru.get k = (some v, c') →
      MapDriver.Get d k = (.ok v, { d with lru := c' })) ∧
    (alistLookup d.lru.items k = none →
      (∀ v : List Nat, DocDriver.Get d.doc k = .ok v →
        MapDriver.Get d k = (.ok v, { d with lru := d.lru.set k v })) ∧
      (∀ e : Err, DocDriver.Get d.doc k = .error e →
        MapDriver.Get d k = (.error e, d))) :=
  ⟨fun _ _ h => MapDriver.Get_hit h,
   fun hmiss =>
     ⟨fun _ hv => MapDriver.Get_miss_ok hmiss hv,
      fun _ he => MapDriver.Get_miss_error hmiss he⟩⟩

/-- Witness for C2: the key "a" is absent from an empty cache but present in
the backend; reading it succeeds and re-populates the cache. -/
theorem map_get_reads_through_witness :
    MapDriver.Get
        { doc := { files := [("a", [1])], failWrite := fun _ => false },
          lru := { cap := 2, items := [] } } "a"
      = (.ok [1],
          { doc := { files := [("a", [1])], failWrite := fun _ => false },
            lru := ({ cap := 2, items := [] } : LruCache).set "a" [1] }) :=
  ((map_get_reads_through
      { doc := { files := [("a", [1])], failWrite := fun _ => false },
        lru := { cap := 2, items := [] } } "a").2 rfl).1 [1] rfl

/-- C3: over every operation sequence on a freshly constructed cache the
number of resident entries never exceeds the capacity; and a Set of a new
key on a full cache inserts it and evicts exactly the least-recently-touched
entry, the last in recency order. -/
theorem lru_capacity_invariant_and_eviction :
    (∀ (cap : Nat) (ops : List LruOp),
      (LruCache.run { cap := cap, items := [] } ops).items.length ≤ cap) ∧
    (∀ (c : LruCache) (k : String) (v : List Nat),
      alistLookup c.items k = none → c.items.length = c.cap → 0 < c.cap →
      (c.set k v).items = (k, v) :: c.items.dropLast) := by
  constructor
  · intro cap ops
    have h := LruCache.run_length_le (c := { cap := cap, items := [] }) ops (by simp)
    rwa [LruCache.run_cap] at h
  · intro c k v habs hfull hpos
    exact LruCache.set_evicts_last v habs hfull hpos

/-- Witness for C3: capacity 2, residents a then b (b most recent); setting
the new key c evicts exactly a, the least-recently-touched; and a concrete
operation sequence never exceeds the capacity. -/
theorem lru_capacity_invariant_and_eviction_witness :
    (LruCache.run { cap := 2, items := [] }
        [.set "a" [1], .set "b" [2], .set "c" [3], .get "a"]).items.length ≤ 2 ∧
    (({ cap := 2, items := [("b", [2]), ("a", [1])] } : LruCache).set "c" [3]).items
      = ("c", [3]) :: [("b", [2]), ("a", [1])].dropLast :=
  ⟨lru_capacity_invariant_and_eviction.1 2 [.set "a" [1], .set "b" [2], .set "c" [3], .get "a"],
   lru_capacity_invariant_and_eviction.2 { cap := 2, items := [("b", [2]), ("a", [1])] }
     "c" [3] (by decide) (by decide) (by decide)⟩

/-- C4: layered Delete removes the key from the cache first (this always
succeeds), then deletes from the backend; a backend NotFound failure is
propagated verbatim, so deleting an absent key is an error end-to-end;
afterwards the cache holds no entry for the key, and when the key was also
absent from the cache the whole state is unchanged. -/
theorem map_del_cache_first_then_backend (d : MapDriver) (k : String) :
    (MapDriver.Del d k).2.lru = d.lru.del k ∧
    alistLookup (MapDriver.Del d k).2.lru.items k = none ∧
    (alistLookup d.doc.files k = none →
      (MapDriver.Del d k).1 = .error .notExist ∧
      (alistLookup d.lru.items k = none → (MapDriver.Del d k).2 = d)) := by
  have hlru : (MapDriver.Del d k).2.lru = d.lru.del k := by
    simp only [MapDriver.Del, LruDriver.Del]
    cases h : DocDriver.Del d.doc k <;> simp [h]
  refine ⟨hlru, ?_, fun habs => ?_⟩
  · rw [hlru]
    exact alistLookup_eraseKey_self d.lru.items k
  · have hdoc : DocDriver.Del d.doc k = .error .notExist := by
      simp [DocDriver.Del, habs]
    constructor
    · simp [MapDriver.Del, LruDriver.Del, hdoc]
    · intro hmiss
      have hid : d.lru.del k = d.lru := by
        simp [LruCache.del, alistEraseKey_of_lookup_none hmiss]
      simp [MapDriver.Del, LruDriver.Del, hdoc, hid]

/-- Witness for C4: the spec scenario, deleting "missing-key" on an empty
store fails with NotFoundError and the state is unchanged. -/
theorem map_del_cache_first_then_backend_witness :
    (MapDriver.Del
        { doc := { files := [], failWrite := fun _ => false },
          lru := { cap := 2, items := [] } } "missing-key").1 = .error .notExist ∧
    (MapDriver.Del
        { doc := { files := [], failWrite := fun _ => false },
          lru := { cap := 2, items := [] } } "missing-key").2
      = { doc := { files := [], failWrite := fun _ => false },
          lru := { cap := 2, items := [] } } := by
  obtain ⟨-, -, h⟩ := map_del_cache_first_then_backend
    { doc := { files := [], failWrite := fun _ => false },
      lru := { cap := 2, items := [] } } "missing-key"
  obtain ⟨h1, h2⟩ := h rfl
  exact ⟨h1, h2 rfl⟩

/-- C5: layered Set writes the cache first and the cache write cannot fail;
then it writes the backend; on a backend failure the error is surfaced while
the cache retains the newly written value and the backend is unchanged; on
backend success both tiers hold the value. -/
theorem map_set_write_through (d : MapDriver) (k : String) (v : List Nat) :
    (LruDriver.Set d.lru k v).1 = .ok () ∧
    (MapDriver.Set d k v).2.lru = d.lru.set k v ∧
    (0 < d.lru.cap → alistLookup (MapDriver.Set d k v).2.lru.items k = some v) ∧
    (d.doc.failWrite k = true →
      (MapDriver.Set d k v).1 = .error .ioError ∧ (MapDriver.Set d k v).2.doc = d.doc) ∧
    (d.doc.failWrite k = false →
      (MapDriver.Set d k v).1 = .ok () ∧
      (MapDriver.Set d k v).2.doc.files = alistStore d.doc.files k v) := by
  have hlru := MapDriver.Set_snd_lru d k v
  refine ⟨rfl, hlru, fun hcap => ?_, fun hfail => ?_, fun hok => ?_⟩
  · rw [hlru]
    exact LruCache.lookup_set_self d.lru k v hcap
  · have hdoc : DocDriver.Set d.doc k v = .error .ioError := by
      simp [DocDriver.Set, hfail]
    constructor <;> simp [MapDriver.Set, LruDriver.Set, hdoc]
  · have hdoc : DocDriver.Set d.doc k v
        = .ok { d.doc with files := alistStore d.doc.files k v } := by
      simp [DocDriver.Set, hok]
    constructor <;> simp [MapDriver.Set, LruDriver.Set, hdoc]

/-- Witness for C5: a backend whose writes on "a" fail; the Set surfaces the
I/O error while the cache retains the value. -/
theorem map_set_write_through_witness :
    alistLookup (MapDriver.Set
        { doc := { files := [], failWrite := fun _ => true },
          lru := { cap := 2, items := [] } } "a" [7]).2.lru.items "a" = some [7] ∧
    (MapDriver.Set
        { doc := { files := [], failWrite := fun _ => true },
          lru := { cap := 2, items := [] } } "a" [7]).1 = .error .ioError ∧
    (MapDriver.Set
        { doc := { files := [], failWrite := fun _ => true },
          lru := { cap := 2, items := [] } } "a" [7]).2.doc
      = { files := [], failWrite := fun _ => true } := by
  obtain ⟨-, -, h3, h4, -⟩ := map_set_write_through
    { doc := { files := [], failWrite := fun _ => true },
      lru := { cap := 2, items := [] } } "a" [7]
  obtain ⟨h41, h42⟩ := h4 rfl
  exact ⟨h3 (by decide), h41, h42⟩

/-- C6: the layered store propagates backend errors verbatim on a read miss,
and cache population on a read miss cannot fail the read: the cache write
returns a nil error unconditionally, so whenever the backend fetch succeeds
the fetched value is returned to the caller. -/
theorem map_get_error_policy (d : MapDriver) (k : String) :
    (∀ v : List Nat, (LruDriver.Set d.lru k v).1 = .ok ()) ∧
    (alistLookup d.lru.items k = none →
      (∀ e : Err, DocDriver.Get d.doc k = .error e → (MapDriver.Get d k).1 = .error e) ∧
      (∀ v : List Nat, DocDriver.Get d.doc k = .ok v → (MapDriver.Get d k).1 = .ok v)) := by
  refine ⟨fun _ => rfl, fun hmiss => ⟨fun e he => ?_, fun v hv => ?_⟩⟩
  · rw [MapDriver.Get_miss_error hmiss he]
  · rw [MapDriver.Get_miss_ok hmiss hv]

/-- Witness for C6: a missing key propagates NotFound verbatim; a present
backend key is returned even though it is also inserted into the cache. -/
theorem map_get_error_policy_witness :
    (MapDriver.Get
        { doc := { files := [], failWrite := fun _ => false },
          lru := { cap := 2, items := [] } } "z").1 = .error .notExist ∧
    (MapDriver.Get
        { doc := { files := [("z", [9])], failWrite := fun _ => false },
          lru := { cap := 2, items := [] } } "z").1 = .ok [9] := by
  constructor
  · exact ((map_get_error_policy
      { doc := { files := [], failWrite := fun _ => false },
        lru := { cap := 2, items := [] } } "z").2 rfl).1 .notExist rfl
  · exact ((map_get_error_policy
      { doc := { files := [("z", [9])], failWrite := fun _ => false },
        lru := { cap := 2, items := [] } } "z").2 rfl).2 [9] rfl

/-- C7: constructing the eviction cache with capacity less than or equal to
zero is rejected with a configuration error at construction time. -/
theorem newlru_rejects_nonpositive_capacity (size : Int) (h : size ≤ 0) :
    NewLruDriver size = .error .configError := by
  simp [NewLruDriver, h]

/-- Witness for C7 at capacity 0. -/
theorem newlru_rejects_nonpositive_capacity_witness :
    (0 : Int) ≤ 0 ∧ NewLruDriver 0 = .error .configError :=
  ⟨by decide, newlru_rejects_nonpositive_capacity 0 (by decide)⟩

/-- C8: SetEncode propagates an encode failure unchanged without touching
the store, otherwise performs the guarded Set of the encoded bytes;
GetDecode returns a failed guarded Get's error unchanged without invoking
the decoder, otherwise returns the decoder's result, failures included,
unchanged. -/
theorem emerge_encode_decode_propagation {σ : Type} (D : GoDriver σ) (s : σ) (k : String) :
    (∀ e : Err, Emerge.SetEncode D s k (.error e) = (.error e, s)) ∧
    (∀ b : List Nat, Emerge.SetEncode D s k (.ok b) = Emerge.Set D s k b) ∧
    (∀ (unmarshal : List Nat → Except Err Unit) (e : Err) (s' : σ),
      Emerge.Get D s k = (.error e, s') →
      Emerge.GetDecode D s k unmarshal = (.error e, s')) ∧
    (∀ (unmarshal : List Nat → Except Err Unit) (b : List Nat) (s' : σ),
      Emerge.Get D s k = (.ok b, s') →
      Emerge.GetDecode D s k unmarshal = (unmarshal b, s')) := by
  refine ⟨fun _ => rfl, fun _ => rfl, fun u e s' h => ?_, fun u b s' h => ?_⟩ <;>
    simp [Emerge.GetDecode, h]

/-- Witness for C8: on the memory driver, an encode failure leaves the store
untouched, and a Get failure is returned with the decoder never consulted. -/
theorem emerge_encode_decode_propagation_witness :
    Emerge.SetEncode MemGoDriver { data := [] } "a" (.error .encodeError)
      = (.error .encodeError, { data := [] }) ∧
    Emerge.GetDecode MemGoDriver { data := [] } "a" (fun _ => .error .decodeError)
      = (.error .notExist, { data := [] }) :=
  ⟨(emerge_encode_decode_propagation MemGoDriver { data := [] } "a").1 .encodeError,
   (emerge_encode_decode_propagation MemGoDriver { data := [] } "a").2.2.1
     (fun _ => .error .decodeError) .notExist { data := [] } rfl⟩

/-- C10: MemDriver.Del and LruDriver.Del return a nil error for every key,
present or absent, never NotFoundError; by contrast the file-backed
DocDriver.Del on an absent key fails with NotFoundError. -/
theorem mem_and_lru_del_never_error (m : MemDriver) (c : LruCache) (fs : DocDriver)
    (k : String) :
    (MemDriver.Del m k).1 = .ok () ∧
    (LruDriver.Del c k).1 = .ok () ∧
    (alistLookup fs.files k = none → DocDriver.Del fs k = .error .notExist) :=
  ⟨rfl, rfl, fun h => by simp [DocDriver.Del, h]⟩

/-- Witness for C10: deleting an absent key on each driver. -/
theorem mem_and_lru_del_never_error_witness :
    (MemDriver.Del { data := [] } "k").1 = .ok () ∧
    (LruDriver.Del { cap := 1, items := [] } "k").1 = .ok () ∧
    DocDriver.Del { files := [], failWrite := fun _ => false } "k" = .error .notExist := by
  obtain ⟨h1, h2, h3⟩ := mem_and_lru_del_never_error { data := [] }
    { cap := 1, items := [] } { files := [], failWrite := fun _ => false } "k"
  exact ⟨h1, h2, h3 rfl⟩

end Acdb
